import Mathlib

/-!
Verification of the paginated-fetch and PR review-classification scripts.

Shallow embedding of the Python scripts in this repository:

* `src/who-has-prs/prs-by-dev-html.py` (namespace `PrsByDevHtml`)
* `src/who-has-prs/who-has-prs.py` (namespace `WhoHasPrs`)
* `src/num-commits-by-month/github_commit_report.py` (namespace `NumCommitsByMonth`)

Network I/O is modelled by a transport: the list of responses the server
hands back, consumed one per HTTP GET in request order.  Timestamps are
integers (UTC epoch seconds); `timedelta(days = d)` is `d * 86400` seconds.
Side effects of a paginated fetch (requests issued, sleeps performed) are
recorded in an explicit event trace.
-/

/-- A GitHub user object; only the `login` field is ever read. -/
structure User where
  login : String
deriving DecidableEq, Repr

/-- An issue-style comment on a pull request (`comment["user"]["login"]`). -/
structure IssueComment where
  user : User
deriving DecidableEq, Repr

/-- A formal code review (`review["user"]["login"]`, `review["state"]`). -/
structure Review where
  user : User
  state : String
deriving DecidableEq, Repr

/-- A pull request object, with exactly the fields the scripts read.
`updated_at` is the parsed `pr['updated_at']` instant, as UTC epoch seconds. -/
structure PullRequest where
  base_repo_full_name : String
  number : Nat
  title : String
  user_login : String
  html_url : String
  updated_at : Int
  requested_reviewers : List User
deriving DecidableEq, Repr

/-- Outcome of one `requests.get` in the paginated PR fetch loop of
`prs-by-dev-html.py`:
* `rateLimited reset`: status 403 with an `X-RateLimit-Remaining` header and
  `X-RateLimit-Reset = reset`;
* `httpError`: any other non-2xx status — `raise_for_status()` raises;
* `netError`: `requests.get` itself raises a `RequestException`;
* `ok items`: status 200 with the given JSON array body. -/
inductive PageResp (α : Type) where
  | rateLimited (reset_time : Int)
  | httpError
  | netError
  | ok (items : List α)
deriving DecidableEq, Repr

/-- An observable side effect of the fetch loop: an HTTP GET for a given
page number, or a `time.sleep` for a given number of seconds. -/
inductive FetchEvent where
  | request (page : Nat)
  | sleep (seconds : Int)
deriving DecidableEq, Repr

/-- Outcome of one `requests.get` in the feedback check: a response with a
status code and parsed JSON body, or a raised `RequestException`. -/
inductive ReqResult (α : Type) where
  | resp (status : Nat) (body : α)
  | netError
deriving DecidableEq, Repr

namespace PrsByDevHtml

/-- The two endpoint responses `has_reviewer_feedback` reads for one pull
request: issue comments and formal reviews. -/
structure EndpointResponses where
  comments : ReqResult (List IssueComment)
  reviews : ReqResult (List Review)

/-- `GitHubPRFetcher.__init__`: the configuration the fetcher carries
(the token/headers only feed the HTTP layer and are not modelled).
`days_stale` defaults to `7` exactly as in the Python signature. -/
structure GitHubPRFetcher where
  developers : List String
  days_stale : Int := 7

/-- The loop body of `GitHubPRFetcher.fetch_open_prs`, recursing on the
transport (one response consumed per GET).  State: `acc` is `all_prs`,
`page` the 1-based page counter; `now` is `int(time.time())`.  Returns the
outcome (`Except.ok` the fetched items, or `Except.error` an uncaught
exception that propagates to the caller) and the trace of requests and
sleeps.  On `rateLimited` the code computes `wait = reset - now + 1` with
no clamping: when `wait` is non-negative `time.sleep(wait)` completes and
the whole fetch re-enters with `page = 1` and an empty accumulator; when
`wait` is negative `time.sleep` raises `ValueError`, which the
`except requests.exceptions.RequestException` handler does not catch, so
the fetch aborts with no sleep and no retry.  On `httpError`/`netError`
the exception is caught, logged and the loop breaks, returning `acc`; on
an empty 200 page the loop breaks; an exhausted transport stands for a
server that stops answering and also ends the loop. -/
def fetchPages {α : Type} : List (PageResp α) → Int → List α → Nat →
    Except String (List α) × List FetchEvent
  | [], _, acc, _ => (Except.ok acc, [])
  | PageResp.rateLimited reset :: rest, now, _acc, page =>
    let wait := reset - now + 1
    if wait < 0 then (Except.error "ValueError", [FetchEvent.request page])
    else
      let r := fetchPages rest now [] 1
      (r.1, FetchEvent.request page :: FetchEvent.sleep wait :: r.2)
  | PageResp.httpError :: _, _, acc, page =>
    (Except.ok acc, [FetchEvent.request page])
  | PageResp.netError :: _, _, acc, page =>
    (Except.ok acc, [FetchEvent.request page])
  | PageResp.ok [] :: _, _, acc, page =>
    (Except.ok acc, [FetchEvent.request page])
  | PageResp.ok (i :: is) :: rest, now, acc, page =>
    let r := fetchPages rest now (acc ++ i :: is) (page + 1)
    (r.1, FetchEvent.request page :: r.2)

/-- `GitHubPRFetcher.fetch_open_prs`: paginated fetch of the open pull
requests of one repository, starting at page 1 with an empty accumulator. -/
def fetch_open_prs (transport : List (PageResp PullRequest)) (now : Int) :
    Except String (List PullRequest) × List FetchEvent :=
  fetchPages transport now [] 1

/-- `GitHubPRFetcher.has_reviewer_feedback`: true when, with both endpoint
requests answering 200, some comment author or some review author in state
`COMMENTED`/`APPROVED`/`CHANGES_REQUESTED` equals `reviewer`; false on any
non-200 status or raised `RequestException` (caught and logged). -/
def has_reviewer_feedback (comments_response : ReqResult (List IssueComment))
    (reviews_response : ReqResult (List Review)) (reviewer : String) : Bool :=
  match comments_response, reviews_response with
  | ReqResult.resp cstatus comments, ReqResult.resp rstatus reviews =>
    if cstatus = 200 ∧ rstatus = 200 then
      comments.any (fun c => c.user.login == reviewer) ||
      reviews.any (fun r => r.user.login == reviewer &&
        (["COMMENTED", "APPROVED", "CHANGES_REQUESTED"] : List String).contains r.state)
    else false
  | _, _ => false

/-- The staleness test of `extract_reviewers`:
`(datetime.now(utc) - last_updated) > timedelta(days = days_stale)`,
with both instants in UTC epoch seconds. -/
def is_stale (days_stale : Int) (now updated_at : Int) : Bool :=
  decide (now - updated_at > days_stale * 86400)

/-- The annotated record `extract_reviewers` appends for one
(pull request, reviewer) pair. -/
structure AnnotatedPR where
  repo : String
  pr_number : Nat
  title : String
  author : String
  url : String
  inProgress : Bool
  isStale : Bool
deriving DecidableEq, Repr

/-- The per-reviewer accumulator `reviewers_data`: an insertion-ordered
dictionary, modelled as an association list. -/
abbrev ReviewerMap := List (String × List AnnotatedPR)

/-- Python dict-comprehension key set: first occurrence of each developer,
in order (`{dev: [] for dev in self.developers}`). -/
def dedupKeys : List String → List String
  | [] => []
  | d :: ds => d :: (dedupKeys ds).filter (fun x => x ≠ d)

/-- Extend the list stored under key `k` with `vs` (the effect of
`reviewers_data[k].append(...)` / `all_reviewers_data[k].extend(...)` on the
dictionary, viewed as an association list). -/
def extendKey (m : ReviewerMap) (k : String) (vs : List AnnotatedPR) : ReviewerMap :=
  m.map (fun p => if p.1 = k then (p.1, p.2 ++ vs) else p)

/-- `reviewers_data[k].append v`: extend the entry for key `k` by one record. -/
def updateReviewer (m : ReviewerMap) (k : String) (v : AnnotatedPR) : ReviewerMap :=
  extendKey m k [v]

/-- The record built in the body of the reviewer loop of
`extract_reviewers`, for pull request `pr` and reviewer `reviewer_name`.
`env` maps a (repository, PR number) pair to the two endpoint responses the
feedback check receives for it. -/
def GitHubPRFetcher.annotate (self : GitHubPRFetcher)
    (env : String → Nat → EndpointResponses) (now : Int)
    (pr : PullRequest) (reviewer_name : String) : AnnotatedPR :=
  { repo := pr.base_repo_full_name
    pr_number := pr.number
    title := pr.title
    author := pr.user_login
    url := pr.html_url
    inProgress := has_reviewer_feedback
      (env pr.base_repo_full_name pr.number).comments
      (env pr.base_repo_full_name pr.number).reviews reviewer_name
    isStale := is_stale self.days_stale now pr.updated_at }

/-- One iteration of the inner loop of `extract_reviewers`: when the
requested reviewer is a configured developer, append the annotated record
to their entry. -/
def GitHubPRFetcher.processReviewer (self : GitHubPRFetcher)
    (env : String → Nat → EndpointResponses) (now : Int) (pr : PullRequest)
    (m : ReviewerMap) (reviewer : User) : ReviewerMap :=
  if reviewer.login ∈ self.developers then
    updateReviewer m reviewer.login (self.annotate env now pr reviewer.login)
  else m

/-- One iteration of the outer loop of `extract_reviewers`: fold the inner
loop over the pull request's `requested_reviewers`. -/
def GitHubPRFetcher.processPR (self : GitHubPRFetcher)
    (env : String → Nat → EndpointResponses) (now : Int)
    (m : ReviewerMap) (pr : PullRequest) : ReviewerMap :=
  pr.requested_reviewers.foldl (self.processReviewer env now pr) m

/-- `reviewers_data = {dev: [] for dev in self.developers}`: one empty
entry per configured developer, first occurrences only, in order. -/
def GitHubPRFetcher.initMap (self : GitHubPRFetcher) : ReviewerMap :=
  (dedupKeys self.developers).map (fun dev => (dev, ([] : List AnnotatedPR)))

/-- `GitHubPRFetcher.extract_reviewers`: seed one empty entry per
configured developer, fold both loops over the pull requests, then drop
empty entries (`{dev: prs for dev, prs in reviewers_data.items() if prs}`). -/
def GitHubPRFetcher.extract_reviewers (self : GitHubPRFetcher)
    (env : String → Nat → EndpointResponses) (now : Int)
    (prs : List PullRequest) : ReviewerMap :=
  (prs.foldl (self.processPR env now) self.initMap).filter
    (fun p => !p.2.isEmpty)

/-- One iteration of the aggregation loop of `fetch_and_display_prs`:
create the developer's entry in `all_reviewers_data` when absent, then
extend it with the extracted list. -/
def mergeReviewer (all : ReviewerMap) (p : String × List AnnotatedPR) :
    ReviewerMap :=
  if p.1 ∈ all.map Prod.fst then extendKey all p.1 p.2
  else all ++ [p]

/-- `GitHubPRFetcher.fetch_and_display_prs` (aggregation only; the JSON and
HTML rendering are out of the modelled core): for each repository, fetch
its open pull requests over that repository's transport, and when the list
is non-empty merge the extracted per-reviewer data into the aggregate.  An
uncaught exception escaping `fetch_open_prs` propagates out of the loop
and aborts the whole run (`Except.error`). -/
def GitHubPRFetcher.fetch_and_display_prs (self : GitHubPRFetcher)
    (env : String → Nat → EndpointResponses) (now : Int)
    (transport : String → List (PageResp PullRequest))
    (repos : List String) : Except String ReviewerMap :=
  repos.foldl (fun acc repo =>
    match acc with
    | Except.error e => Except.error e
    | Except.ok all =>
      match (fetch_open_prs (transport repo) now).1 with
      | Except.error e => Except.error e
      | Except.ok prs =>
        if prs.isEmpty then Except.ok all
        else Except.ok ((self.extract_reviewers env now prs).foldl
          mergeReviewer all)) (Except.ok [])

/-- The parsed configuration returned by `load_config`. -/
structure Config where
  repositories : List String
  developers : List String
  days_stale : Int
deriving DecidableEq, Repr

/-- What the configuration file on disk can look like to `load_config`:
missing, YAML that fails to parse (`yaml.YAMLError`), YAML that parses to a
non-mapping value (`None`, a string, a list, ...), or a mapping with the
optional keys the code reads. -/
inductive ConfigFile where
  | missing
  | unparseable
  | yamlNonMapping
  | yamlMapping (repositories : Option (List String))
      (developers : Option (List String)) (days_stale : Option Int)
deriving DecidableEq

/-- `load_config`: `FileNotFoundError` and `yaml.YAMLError` are caught and
yield empty lists with the default threshold; a parsed non-mapping value
makes `config.get` raise an `AttributeError`, which no handler catches
(modelled as `Except.error`); a mapping yields its entries with defaults
`[]`, `[]`, `7`. -/
def load_config : ConfigFile → Except String Config
  | ConfigFile.missing =>
    Except.ok { repositories := [], developers := [], days_stale := 7 }
  | ConfigFile.unparseable =>
    Except.ok { repositories := [], developers := [], days_stale := 7 }
  | ConfigFile.yamlNonMapping => Except.error "AttributeError"
  | ConfigFile.yamlMapping rs ds d =>
    Except.ok { repositories := rs.getD [], developers := ds.getD [],
                days_stale := d.getD 7 }

end PrsByDevHtml

namespace WhoHasPrs

/-- Outcome of the single `requests.get` of `who-has-prs.py`'s
`fetch_open_prs` (no pagination in this script). -/
inductive SingleResp where
  | rateLimited (reset_time : Int)
  | ok (prs : List PullRequest)
  | httpError
  | netError
deriving DecidableEq, Repr

/-- `GitHubPRFetcher.fetch_open_prs` of `who-has-prs.py`: one GET; on a 403
with rate-limit headers, `time.sleep(reset - now + 1)` and retry — when the
computed wait is negative `time.sleep` raises `ValueError`, which the
`except requests.exceptions.RequestException` handler does not catch, so
the call aborts with no sleep and no retry; on any caught
`RequestException` (including `raise_for_status`) return `[]`.  Returns
the outcome and the list of sleep durations performed. -/
def fetch_open_prs : List SingleResp → Int →
    Except String (List PullRequest) × List Int
  | [], _ => (Except.ok [], [])
  | SingleResp.rateLimited reset :: rest, now =>
    let wait := reset - now + 1
    if wait < 0 then (Except.error "ValueError", [])
    else
      let r := fetch_open_prs rest now
      (r.1, wait :: r.2)
  | SingleResp.ok prs :: _, _ => (Except.ok prs, [])
  | SingleResp.httpError :: _, _ => (Except.ok [], [])
  | SingleResp.netError :: _, _ => (Except.ok [], [])

end WhoHasPrs

namespace NumCommitsByMonth

/-- Outcome of one `requests.get` in `get_commit_count`: a status code with
a JSON array of commits (identified by sha), or a raised
`RequestException` — which this script does not catch. -/
inductive CommitResp where
  | resp (status : Nat) (commits : List String)
  | netError
deriving DecidableEq, Repr

/-- The loop of `get_commit_count`: on a non-200 status print and break; on
a 200 page add its length and break when the page is shorter than 100,
else continue with the next page.  A raised `RequestException` propagates
(`Except.error`).  Returns the total count and the pages requested. -/
def commitLoop : List CommitResp → Nat → Nat → Except String (Nat × List Nat)
  | [], total, _ => Except.ok (total, [])
  | CommitResp.netError :: _, _, _ => Except.error "RequestException"
  | CommitResp.resp status commits :: rest, total, page =>
    if status ≠ 200 then Except.ok (total, [page])
    else if commits.length < 100 then
      Except.ok (total + commits.length, [page])
    else
      match commitLoop rest (total + commits.length) (page + 1) with
      | Except.error e => Except.error e
      | Except.ok (t, ps) => Except.ok (t, page :: ps)

/-- `get_commit_count`: paginated commit count for one repository and date
range, starting at page 1 with a zero total. -/
def get_commit_count (transport : List CommitResp) :
    Except String (Nat × List Nat) :=
  commitLoop transport 0 1

/-- What `repos.yml` can look like to `load_repos_from_yaml`. -/
inductive ReposFile where
  | missing
  | unparseable
  | yamlNonMapping
  | yamlMapping (repos : Option (List String))
deriving DecidableEq

/-- `load_repos_from_yaml`: no exception handling at all — a missing file
raises `FileNotFoundError`, unparseable YAML raises `yaml.YAMLError`, a
parsed non-mapping value makes `config.get` raise `AttributeError`; all
propagate and abort the job (it runs at module import time). -/
def load_repos_from_yaml : ReposFile → Except String (List String)
  | ReposFile.missing => Except.error "FileNotFoundError"
  | ReposFile.unparseable => Except.error "YAMLError"
  | ReposFile.yamlNonMapping => Except.error "AttributeError"
  | ReposFile.yamlMapping rs => Except.ok (rs.getD [])

end NumCommitsByMonth

/-!
Shared concrete data used by witnesses and counterexamples.
-/

/-- A sample pull request used in concrete scenarios. -/
def samplePR : PullRequest :=
  { base_repo_full_name := "octo/repo", number := 1, title := "t",
    user_login := "bob", html_url := "u", updated_at := 0,
    requested_reviewers := [{ login := "alice" }] }

/-- A sample endpoint environment: both feedback endpoints answer 200 with
no items, for every pull request. -/
def aliceEnv : String → Nat → PrsByDevHtml.EndpointResponses := fun _ _ =>
  { comments := ReqResult.resp 200 [], reviews := ReqResult.resp 200 [] }

namespace PrsByDevHtml

/-- Helper: with both endpoints answering 200 and no item authored by the
reviewer, the feedback check is false. -/
theorem has_reviewer_feedback_eq_false_of_no_match
    {comments : List IssueComment} {reviews : List Review} {reviewer : String}
    (hc : ∀ c ∈ comments, c.user.login ≠ reviewer)
    (hr : ∀ r ∈ reviews, r.user.login ≠ reviewer) :
    has_reviewer_feedback (ReqResult.resp 200 comments)
      (ReqResult.resp 200 reviews) reviewer = false := by
  simp only [has_reviewer_feedback]
  rw [if_pos ⟨trivial, trivial⟩]
  simp only [Bool.or_eq_false_iff, List.any_eq_false]
  constructor
  · intro c hcmem
    simp [hc c hcmem]
  · intro r hrmem
    simp [hr r hrmem]

/-- C1: for a (pull request, reviewer) pair whose two endpoint reads both
answer 200, the feedback check returns true iff some comment author equals
the reviewer, or some review author equals the reviewer with a state among
COMMENTED, APPROVED, CHANGES_REQUESTED; a matching-author PENDING review
alone yields false, and a matching-author APPROVED review yields true. -/
theorem has_reviewer_feedback_iff (comments : List IssueComment)
    (reviews : List Review) (reviewer : String) :
    (has_reviewer_feedback (ReqResult.resp 200 comments)
        (ReqResult.resp 200 reviews) reviewer = true ↔
      (∃ c ∈ comments, c.user.login = reviewer) ∨
      (∃ r ∈ reviews, r.user.login = reviewer ∧
        (r.state = "COMMENTED" ∨ r.state = "APPROVED" ∨
          r.state = "CHANGES_REQUESTED"))) ∧
    has_reviewer_feedback (ReqResult.resp 200 [])
      (ReqResult.resp 200 [{ user := { login := reviewer }, state := "PENDING" }])
      reviewer = false ∧
    has_reviewer_feedback (ReqResult.resp 200 [])
      (ReqResult.resp 200 [{ user := { login := reviewer }, state := "APPROVED" }])
      reviewer = true := by
  refine ⟨?_, ?_, ?_⟩
  · simp only [has_reviewer_feedback]
    rw [if_pos ⟨trivial, trivial⟩]
    simp [List.any_eq_true, and_assoc]
  · simp [has_reviewer_feedback]
  · simp [has_reviewer_feedback]

/-- Witness for C1: a lone APPROVED review by "alice" makes the check true,
via the iff applied at concrete inputs. -/
theorem has_reviewer_feedback_iff_witness :
    has_reviewer_feedback (ReqResult.resp 200 [])
      (ReqResult.resp 200 [{ user := { login := "alice" }, state := "APPROVED" }])
      "alice" = true :=
  (has_reviewer_feedback_iff []
    [{ user := { login := "alice" }, state := "APPROVED" }] "alice").1.mpr
    (Or.inr ⟨{ user := { login := "alice" }, state := "APPROVED" },
      List.mem_singleton.mpr rfl, rfl, Or.inr (Or.inl rfl)⟩)

/-- C2: staleness is `now - updatedAt > staleDays` days, strictly: true
exactly when the elapsed seconds exceed `staleDays * 86400`, false when the
elapsed time equals the threshold exactly; `days_stale` defaults to 7. -/
theorem is_stale_strict_threshold (d now upd : Int) (devs : List String) :
    (is_stale d now upd = true ↔ now - upd > d * 86400) ∧
    is_stale d (upd + d * 86400) upd = false ∧
    ({ developers := devs } : GitHubPRFetcher).days_stale = 7 := by
  refine ⟨by simp [is_stale], by simp [is_stale], rfl⟩

/-- Witness for C2: at exactly seven days the PR is not stale; one second
past, it is. -/
theorem is_stale_strict_threshold_witness :
    is_stale 7 604800 0 = false ∧ is_stale 7 604801 0 = true := by
  constructor
  · have h := (is_stale_strict_threshold 7 604800 0 []).2.1
    norm_num at h
    exact h
  · exact (is_stale_strict_threshold 7 604801 0 []).1.mpr (by norm_num)

end PrsByDevHtml

namespace PrsByDevHtml

/-- Helper: a run of non-empty 200 pages is consumed one request per page,
accumulating its items; the loop then continues on the remaining transport
with the extended accumulator and advanced page counter. -/
theorem fetchPages_append_ok {α : Type} (pages : List (List α))
    (h : ∀ p ∈ pages, p ≠ []) (rest : List (PageResp α)) (now : Int)
    (acc : List α) (page : Nat) :
    (fetchPages (pages.map PageResp.ok ++ rest) now acc page).1 =
      (fetchPages rest now (acc ++ pages.flatten) (page + pages.length)).1 := by
  induction pages generalizing acc page with
  | nil => simp
  | cons p ps ih =>
    obtain ⟨i, is, rfl⟩ := List.exists_cons_of_ne_nil (h p (by simp))
    rw [List.map_cons, List.cons_append]
    show (fetchPages (List.map PageResp.ok ps ++ rest) now (acc ++ i :: is)
      (page + 1)).1 = _
    rw [ih (fun q hq => h q (by simp [hq]))]
    simp [List.append_assoc, Nat.add_assoc, Nat.add_comm 1]

/-- C3 counterexample: a page-1 response with a single item (fewer than the
page size of 100) makes `fetch_open_prs` issue a request for page 2: the
loop terminates only on an empty page, not on a short page. -/
theorem fetch_short_page_issues_page2_request :
    (fetch_open_prs [PageResp.ok [samplePR], PageResp.ok []] 0).1 =
      Except.ok [samplePR] ∧
    List.length [samplePR] < 100 ∧
    FetchEvent.request 2 ∈ (fetch_open_prs [PageResp.ok [samplePR], PageResp.ok []] 0).2 :=
  ⟨rfl, by decide, by decide⟩

/-- C3 amended: the commit-count fetcher (`get_commit_count`) returns
exactly page 1's item count and issues no page-2 request when page 1 is
shorter than the page size; the PR fetcher (`fetch_open_prs`) terminates
only on a zero-item page, so a short non-empty page 1 is followed by a
page-2 request, and when page 2 is empty it returns exactly page 1's
items. -/
theorem short_page_termination (commits : List String)
    (rest : List NumCommitsByMonth.CommitResp) (items : List PullRequest)
    (rest2 : List (PageResp PullRequest)) (now : Int)
    (h1 : commits.length < 100) (h2 : items ≠ []) (_h3 : items.length < 100) :
    NumCommitsByMonth.get_commit_count (NumCommitsByMonth.CommitResp.resp 200 commits :: rest) =
      Except.ok (commits.length, [1]) ∧
    fetch_open_prs (PageResp.ok items :: PageResp.ok [] :: rest2) now =
      (Except.ok items, [FetchEvent.request 1, FetchEvent.request 2]) := by
  constructor
  · simp [NumCommitsByMonth.get_commit_count, NumCommitsByMonth.commitLoop, h1]
  · obtain ⟨i, is, rfl⟩ := List.exists_cons_of_ne_nil h2
    simp [fetch_open_prs, fetchPages]

/-- Witness for the amended C3 at concrete inputs. -/
theorem short_page_termination_witness :
    NumCommitsByMonth.get_commit_count [NumCommitsByMonth.CommitResp.resp 200 ["c1"]] =
      Except.ok (1, [1]) ∧
    fetch_open_prs [PageResp.ok [samplePR], PageResp.ok []] 0 =
      (Except.ok [samplePR], [FetchEvent.request 1, FetchEvent.request 2]) := by
  have h := short_page_termination ["c1"] [] [samplePR] [] 0
    (by decide) (by decide) (by decide)
  simpa using h

/-- C4 counterexample: a 403 rate-limit response whose reset time is in the
past (reset 990, now 1000) gives `wait = reset - now + 1 = -9 < 0`;
`time.sleep(-9)` raises `ValueError`, which the handler for
`RequestException` does not catch, so the fetch aborts with no completed
sleep and no page-1 retry — contradicting the claimed clamped sleep of
`max 0 (-9) = 0` followed by a full re-fetch. -/
theorem rate_limit_negative_wait_aborts :
    fetch_open_prs [PageResp.rateLimited 990, PageResp.ok []] 1000 =
      (Except.error "ValueError", [FetchEvent.request 1]) ∧
    (990 : Int) - 1000 + 1 < 0 ∧
    max 0 ((990 : Int) - 1000 + 1) = 0 :=
  ⟨rfl, by decide, by decide⟩

/-- C4 amended: on a 403 carrying rate-limit headers the fetcher computes
`wait = reset - now + 1` with no clamping.  When the wait is non-negative
it sleeps exactly that long and then re-issues the entire fetch from
page 1, discarding the pages accumulated so far in that call; when the
wait is negative, `time.sleep` raises an uncaught `ValueError` and the
fetch aborts with no sleep and no retry.  The same holds for the retry in
`who-has-prs.py`. -/
theorem rate_limit_retry_discards (reset now reset2 now2 : Int)
    (rest : List (PageResp PullRequest)) (acc acc2 : List PullRequest)
    (page page2 : Nat) (srest : List WhoHasPrs.SingleResp)
    (hw : 0 ≤ reset - now + 1) (hw2 : reset2 - now2 + 1 < 0) :
    fetchPages (PageResp.rateLimited reset :: rest) now acc page =
      ((fetchPages rest now [] 1).1,
        FetchEvent.request page :: FetchEvent.sleep (reset - now + 1) ::
          (fetchPages rest now [] 1).2) ∧
    fetchPages (PageResp.rateLimited reset2 :: rest) now2 acc2 page2 =
      (Except.error "ValueError", [FetchEvent.request page2]) ∧
    WhoHasPrs.fetch_open_prs (WhoHasPrs.SingleResp.rateLimited reset :: srest) now =
      ((WhoHasPrs.fetch_open_prs srest now).1,
        (reset - now + 1) :: (WhoHasPrs.fetch_open_prs srest now).2) ∧
    WhoHasPrs.fetch_open_prs (WhoHasPrs.SingleResp.rateLimited reset2 :: srest) now2 =
      (Except.error "ValueError", []) := by
  refine ⟨?_, ?_, ?_, ?_⟩
  · simp [fetchPages, not_lt.mpr hw]
  · simp [fetchPages, hw2]
  · simp [WhoHasPrs.fetch_open_prs, not_lt.mpr hw]
  · simp [WhoHasPrs.fetch_open_prs, hw2]

/-- Witness for the amended C4: wait 6 sleeps and retries from page 1
(discarding the accumulated `samplePR`); wait −9 aborts. -/
theorem rate_limit_retry_discards_witness :
    fetchPages [PageResp.rateLimited 1005, PageResp.ok []] 1000 [samplePR] 3 =
      (Except.ok [],
        [FetchEvent.request 3, FetchEvent.sleep 6, FetchEvent.request 1]) ∧
    fetchPages [PageResp.rateLimited 990, PageResp.ok []] 1000 [samplePR] 3 =
      (Except.error "ValueError", [FetchEvent.request 3]) ∧
    WhoHasPrs.fetch_open_prs [WhoHasPrs.SingleResp.rateLimited 990] 1000 =
      (Except.error "ValueError", []) := by
  have h := rate_limit_retry_discards 1005 1000 990 1000 [PageResp.ok []]
    [samplePR] [samplePR] 3 3 [] (by decide) (by decide)
  exact ⟨by rw [h.1]; rfl, h.2.1, h.2.2.2⟩

end PrsByDevHtml

namespace NumCommitsByMonth

/-- Helper: over a run of full (exactly 100-item) 200 pages followed by an
empty 200 page, the commit loop adds every page's length to the total. -/
theorem commitLoop_full_then_empty (cpages : List (List String))
    (h : ∀ p ∈ cpages, p.length = 100) (total page : Nat) :
    ∃ reqs, commitLoop (cpages.map (CommitResp.resp 200) ++ [CommitResp.resp 200 []])
      total page = Except.ok (total + cpages.flatten.length, reqs) := by
  induction cpages generalizing total page with
  | nil => exact ⟨[page], by simp [commitLoop]⟩
  | cons p ps ih =>
    have hp : p.length = 100 := h p (by simp)
    obtain ⟨reqs, hr⟩ := ih (fun q hq => h q (by simp [hq])) (total + p.length) (page + 1)
    refine ⟨page :: reqs, ?_⟩
    rw [List.map_cons, List.cons_append]
    show (if (200 : Nat) ≠ 200 then _ else _) = _
    rw [if_neg (by simp), if_neg (by simp [hp]), hr]
    simp [Nat.add_assoc]

end NumCommitsByMonth

namespace PrsByDevHtml

/-- C5: when pages 1..N each return exactly 100 items (the page size) and
page N+1 returns zero items, all over HTTP 200, the PR fetcher returns the
concatenation of pages 1..N in order, and the commit-count fetcher returns
its total length. -/
theorem full_pages_concatenation (pages : List (List PullRequest))
    (cpages : List (List String)) (now : Int)
    (h : ∀ p ∈ pages, p.length = 100) (hc : ∀ p ∈ cpages, p.length = 100) :
    (fetch_open_prs (pages.map PageResp.ok ++ [PageResp.ok []]) now).1 =
      Except.ok pages.flatten ∧
    ∃ reqs, NumCommitsByMonth.get_commit_count
      (cpages.map (NumCommitsByMonth.CommitResp.resp 200) ++
        [NumCommitsByMonth.CommitResp.resp 200 []]) =
      Except.ok (cpages.flatten.length, reqs) := by
  constructor
  · rw [fetch_open_prs, fetchPages_append_ok pages
      (fun p hp => by simp [← List.length_eq_zero, h p hp]) [PageResp.ok []] now [] 1]
    simp [fetchPages]
  · simpa using NumCommitsByMonth.commitLoop_full_then_empty cpages hc 0 1

end PrsByDevHtml

namespace PrsByDevHtml

/-- Witness for C5: one full page of 100 items then an empty page. -/
theorem full_pages_concatenation_witness :
    (fetch_open_prs ([List.replicate 100 samplePR].map PageResp.ok ++
      [PageResp.ok []]) 0).1 = Except.ok [List.replicate 100 samplePR].flatten ∧
    ∃ reqs, NumCommitsByMonth.get_commit_count
      ([List.replicate 100 "s"].map (NumCommitsByMonth.CommitResp.resp 200) ++
        [NumCommitsByMonth.CommitResp.resp 200 []]) =
      Except.ok ([List.replicate 100 "s"].flatten.length, reqs) :=
  full_pages_concatenation [List.replicate 100 samplePR] [List.replicate 100 "s"] 0
    (by simp) (by simp)

/-- C6: when a page request fails with a caught error (any non-200 non-403
status via `raise_for_status`, or a network `RequestException`), the
paginated fetcher returns exactly the pages accumulated before the failure
(and `who-has-prs.py`'s single-shot fetcher returns `[]`); these
exceptions are caught inside the loop, so on such failures nothing is
raised to the caller and the result is `Except.ok` the accumulator. -/
theorem failure_returns_accumulated (pages : List (List PullRequest))
    (now : Int) (fail : PageResp PullRequest) (rest : List (PageResp PullRequest))
    (srest : List WhoHasPrs.SingleResp)
    (hne : ∀ p ∈ pages, p ≠ [])
    (hf : fail = PageResp.httpError ∨ fail = PageResp.netError) :
    (fetch_open_prs (pages.map PageResp.ok ++ fail :: rest) now).1 =
      Except.ok pages.flatten ∧
    WhoHasPrs.fetch_open_prs (WhoHasPrs.SingleResp.httpError :: srest) now =
      (Except.ok [], []) ∧
    WhoHasPrs.fetch_open_prs (WhoHasPrs.SingleResp.netError :: srest) now =
      (Except.ok [], []) := by
  refine ⟨?_, rfl, rfl⟩
  rw [fetch_open_prs, fetchPages_append_ok pages hne (fail :: rest) now [] 1]
  rcases hf with rfl | rfl <;> simp [fetchPages]

/-- Witness for C6: one accumulated page, then a 500. -/
theorem failure_returns_accumulated_witness :
    (fetch_open_prs [PageResp.ok [samplePR], PageResp.httpError] 0).1 =
      Except.ok [samplePR] ∧
    WhoHasPrs.fetch_open_prs [WhoHasPrs.SingleResp.httpError] 0 =
      (Except.ok [], []) ∧
    WhoHasPrs.fetch_open_prs [WhoHasPrs.SingleResp.netError] 0 =
      (Except.ok [], []) := by
  have h := failure_returns_accumulated [[samplePR]] 0 PageResp.httpError [] []
    (by simp) (Or.inl rfl)
  simpa using h

/-- C7: when either of the two feedback reads fails (a non-200 status on
comments or reviews, or a raised `RequestException` on either), the
classifier reports false — even when the other response contains matching
feedback; the failure is caught (`has_reviewer_feedback` is total), not
raised. -/
theorem feedback_false_on_request_failure (cstatus rstatus : Nat)
    (comments : List IssueComment) (reviews : List Review) (reviewer : String)
    (cresp : ReqResult (List IssueComment)) (rresp : ReqResult (List Review))
    (h : cstatus ≠ 200 ∨ rstatus ≠ 200) :
    has_reviewer_feedback (ReqResult.resp cstatus comments)
      (ReqResult.resp rstatus reviews) reviewer = false ∧
    has_reviewer_feedback ReqResult.netError rresp reviewer = false ∧
    has_reviewer_feedback cresp ReqResult.netError reviewer = false := by
  refine ⟨?_, rfl, ?_⟩
  · rcases h with h | h <;>
      simp [has_reviewer_feedback, h]
  · cases cresp <;> rfl

/-- Witness for C7: the comments endpoint answers 500 while the reviews
endpoint holds a matching APPROVED review; feedback is still false. -/
theorem feedback_false_on_request_failure_witness :
    has_reviewer_feedback (ReqResult.resp 500 [])
      (ReqResult.resp 200 [{ user := { login := "alice" }, state := "APPROVED" }])
      "alice" = false ∧
    has_reviewer_feedback ReqResult.netError
      (ReqResult.resp 200 [{ user := { login := "alice" }, state := "APPROVED" }])
      "alice" = false ∧
    has_reviewer_feedback (ReqResult.resp 200 []) ReqResult.netError "alice" = false :=
  feedback_false_on_request_failure 500 200 []
    [{ user := { login := "alice" }, state := "APPROVED" }] "alice"
    (ReqResult.resp 200 [])
    (ReqResult.resp 200 [{ user := { login := "alice" }, state := "APPROVED" }])
    (Or.inl (by decide))

end PrsByDevHtml

/-- C9 counterexample: in the commit-report job a missing configuration
file raises `FileNotFoundError` (no handler — `load_repos_from_yaml` runs
at import time), and in the PR-report job configuration content that
parses to a non-mapping value raises an uncaught `AttributeError`; both
abort the job instead of yielding empty lists. -/
theorem config_error_counterexample :
    NumCommitsByMonth.load_repos_from_yaml NumCommitsByMonth.ReposFile.missing =
      Except.error "FileNotFoundError" ∧
    PrsByDevHtml.load_config PrsByDevHtml.ConfigFile.yamlNonMapping =
      Except.error "AttributeError" :=
  ⟨rfl, rfl⟩

/-- C9 amended: in the PR-report job (`prs-by-dev-html.py`) a missing
configuration file or a YAML syntax error yields empty repository and
developer lists with the default threshold 7 plus a logged warning, and
the run proceeds; but content that parses to a non-mapping value raises an
uncaught `AttributeError`, and in the commit-report job
(`github_commit_report.py`) a missing or unparseable configuration file
raises and aborts the job before any report. -/
theorem config_error_handling (rs ds : Option (List String)) (d : Option Int)
    (rs2 : Option (List String)) :
    PrsByDevHtml.load_config PrsByDevHtml.ConfigFile.missing =
      Except.ok { repositories := [], developers := [], days_stale := 7 } ∧
    PrsByDevHtml.load_config PrsByDevHtml.ConfigFile.unparseable =
      Except.ok { repositories := [], developers := [], days_stale := 7 } ∧
    PrsByDevHtml.load_config (PrsByDevHtml.ConfigFile.yamlMapping rs ds d) =
      Except.ok { repositories := rs.getD [], developers := ds.getD [],
                  days_stale := d.getD 7 } ∧
    PrsByDevHtml.load_config PrsByDevHtml.ConfigFile.yamlNonMapping =
      Except.error "AttributeError" ∧
    NumCommitsByMonth.load_repos_from_yaml NumCommitsByMonth.ReposFile.missing =
      Except.error "FileNotFoundError" ∧
    NumCommitsByMonth.load_repos_from_yaml NumCommitsByMonth.ReposFile.unparseable =
      Except.error "YAMLError" ∧
    NumCommitsByMonth.load_repos_from_yaml (NumCommitsByMonth.ReposFile.yamlMapping rs2) =
      Except.ok (rs2.getD []) :=
  ⟨rfl, rfl, rfl, rfl, rfl, rfl, rfl⟩

namespace PrsByDevHtml

/-- Helper: lookup at the key just consed. -/
theorem lookup_cons_self (k : String) (v : List AnnotatedPR) (l : ReviewerMap) :
    List.lookup k ((k, v) :: l) = some v := by
  simp [List.lookup]

/-- Helper: lookup skips an entry with a different key. -/
theorem lookup_cons_ne {k pk : String} (h : k ≠ pk) (pv : List AnnotatedPR)
    (l : ReviewerMap) : List.lookup k ((pk, pv) :: l) = List.lookup k l := by
  simp [List.lookup, beq_eq_false_iff_ne.mpr h]

/-- Helper: `extendKey` appends `vs` to the value seen by lookup at `k`. -/
theorem lookup_extendKey_self (m : ReviewerMap) (k : String)
    (vs : List AnnotatedPR) :
    List.lookup k (extendKey m k vs) = (List.lookup k m).map (fun l => l ++ vs) := by
  induction m with
  | nil => rfl
  | cons p ps ih =>
    obtain ⟨pk, pv⟩ := p
    by_cases hk : k = pk
    · subst hk
      simp only [extendKey, List.map_cons, eq_self_iff_true, if_true]
      rw [lookup_cons_self, lookup_cons_self]
      rfl
    · simp only [extendKey, List.map_cons,
        if_neg (fun he : pk = k => hk he.symm)]
      rw [lookup_cons_ne hk, lookup_cons_ne hk]
      exact ih

/-- Helper: `extendKey` at another key leaves lookup unchanged. -/
theorem lookup_extendKey_ne (m : ReviewerMap) {k k2 : String} (h : k ≠ k2)
    (vs : List AnnotatedPR) :
    List.lookup k (extendKey m k2 vs) = List.lookup k m := by
  induction m with
  | nil => rfl
  | cons p ps ih =>
    obtain ⟨pk, pv⟩ := p
    by_cases hk : k = pk
    · subst hk
      simp only [extendKey, List.map_cons, if_neg (fun he : k = k2 => h he)]
      rw [lookup_cons_self, lookup_cons_self]
    · by_cases hk2 : pk = k2
      · simp only [extendKey, List.map_cons, if_pos hk2]
        rw [lookup_cons_ne hk, lookup_cons_ne hk]
        exact ih
      · simp only [extendKey, List.map_cons, if_neg hk2]
        rw [lookup_cons_ne hk, lookup_cons_ne hk]
        exact ih

/-- Helper: a successful lookup is preserved by appending on the right. -/
theorem lookup_append_some {k : String} {m1 : ReviewerMap}
    {v : List AnnotatedPR} (h : List.lookup k m1 = some v) (m2 : ReviewerMap) :
    List.lookup k (m1 ++ m2) = some v := by
  induction m1 with
  | nil => simp [List.lookup] at h
  | cons p ps ih =>
    obtain ⟨pk, pv⟩ := p
    by_cases hk : k = pk
    · subst hk
      rw [lookup_cons_self] at h
      rw [List.cons_append, lookup_cons_self]
      exact h
    · rw [lookup_cons_ne hk] at h
      rw [List.cons_append, lookup_cons_ne hk]
      exact ih h

/-- Helper: a failed lookup defers to the appended tail. -/
theorem lookup_append_none {k : String} {m1 : ReviewerMap}
    (h : List.lookup k m1 = none) (m2 : ReviewerMap) :
    List.lookup k (m1 ++ m2) = List.lookup k m2 := by
  induction m1 with
  | nil => rfl
  | cons p ps ih =>
    obtain ⟨pk, pv⟩ := p
    by_cases hk : k = pk
    · subst hk
      rw [lookup_cons_self] at h
      exact absurd h (by simp)
    · rw [lookup_cons_ne hk] at h
      rw [List.cons_append, lookup_cons_ne hk]
      exact ih h

/-- Helper: a successful lookup exhibits a member of the association list. -/
theorem mem_of_lookup {k : String} {m : ReviewerMap} {l : List AnnotatedPR}
    (h : List.lookup k m = some l) : (k, l) ∈ m := by
  induction m with
  | nil => simp [List.lookup] at h
  | cons p ps ih =>
    obtain ⟨pk, pv⟩ := p
    by_cases hk : k = pk
    · subst hk
      rw [lookup_cons_self] at h
      obtain rfl : pv = l := Option.some.inj h
      exact List.mem_cons_self _ _
    · rw [lookup_cons_ne hk] at h
      exact List.mem_cons_of_mem _ (ih h)

/-- Helper: lookup succeeds exactly on the keys of the association list. -/
theorem lookup_isSome_iff_mem_keys {k : String} {m : ReviewerMap} :
    (List.lookup k m).isSome = true ↔ k ∈ m.map Prod.fst := by
  induction m with
  | nil => simp [List.lookup]
  | cons p ps ih =>
    obtain ⟨pk, pv⟩ := p
    by_cases hk : k = pk
    · subst hk
      rw [lookup_cons_self]
      simp
    · rw [lookup_cons_ne hk]
      simp [hk, ih]

end PrsByDevHtml

namespace PrsByDevHtml

/-- Helper: `extendKey` does not change the key sequence. -/
theorem extendKey_keys (m : ReviewerMap) (k : String) (vs : List AnnotatedPR) :
    (extendKey m k vs).map Prod.fst = m.map Prod.fst := by
  induction m with
  | nil => rfl
  | cons p ps ih =>
    have hp : ((if p.1 = k then (p.1, p.2 ++ vs) else p) :
        String × List AnnotatedPR).1 = p.1 := by
      split <;> rfl
    simp only [extendKey, List.map_cons] at ih ⊢
    rw [hp, ih]

/-- Helper: one inner-loop step does not change the key sequence. -/
theorem processReviewer_keys (f : GitHubPRFetcher)
    (env : String → Nat → EndpointResponses) (now : Int) (pr : PullRequest)
    (m : ReviewerMap) (r : User) :
    (f.processReviewer env now pr m r).map Prod.fst = m.map Prod.fst := by
  unfold GitHubPRFetcher.processReviewer
  split
  · exact extendKey_keys m r.login [f.annotate env now pr r.login]
  · rfl

/-- Helper: a fold whose step preserves the key sequence preserves it. -/
theorem foldl_keys_preserved {β : Type} (step : ReviewerMap → β → ReviewerMap)
    (hstep : ∀ m b, (step m b).map Prod.fst = m.map Prod.fst) :
    ∀ (l : List β) (m : ReviewerMap),
      (l.foldl step m).map Prod.fst = m.map Prod.fst
  | [], _ => rfl
  | b :: bs, m => by
    rw [List.foldl_cons, foldl_keys_preserved step hstep bs (step m b), hstep]

/-- Helper: one outer-loop step does not change the key sequence. -/
theorem processPR_keys (f : GitHubPRFetcher)
    (env : String → Nat → EndpointResponses) (now : Int)
    (m : ReviewerMap) (pr : PullRequest) :
    (f.processPR env now m pr).map Prod.fst = m.map Prod.fst :=
  foldl_keys_preserved _ (processReviewer_keys f env now pr)
    pr.requested_reviewers m

/-- Helper: deduplication preserves membership. -/
theorem mem_dedupKeys {a : String} : ∀ {l : List String},
    a ∈ dedupKeys l ↔ a ∈ l := by
  intro l
  induction l with
  | nil => simp [dedupKeys]
  | cons d ds ih =>
    by_cases h : a = d <;> simp [dedupKeys, List.mem_filter, ih, h]

/-- Helper: seeding keys with `[]` makes every key look up to `[]`. -/
theorem lookup_map_nil_of_mem {k : String} : ∀ {ks : List String}, k ∈ ks →
    List.lookup k (ks.map (fun dev => (dev, ([] : List AnnotatedPR)))) = some [] := by
  intro ks hk
  induction ks with
  | nil => simp at hk
  | cons d ds ih =>
    by_cases h : k = d
    · subst h
      rw [List.map_cons, lookup_cons_self]
    · rw [List.map_cons, lookup_cons_ne h]
      exact ih (by simpa [h] using hk)

/-- Helper: the seeded map binds every configured developer to `[]`. -/
theorem lookup_initMap {f : GitHubPRFetcher} {k : String}
    (h : k ∈ f.developers) : List.lookup k f.initMap = some [] :=
  lookup_map_nil_of_mem (mem_dedupKeys.mpr h)

/-- Helper: a fold whose step only appends to looked-up values preserves,
and possibly extends, a successful lookup. -/
theorem lookup_foldl_mono {β : Type} (step : ReviewerMap → β → ReviewerMap)
    (hstep : ∀ m (k : String) l b, List.lookup k m = some l →
      ∃ l2, List.lookup k (step m b) = some (l ++ l2)) (bs : List β) :
    ∀ {m : ReviewerMap} {k : String} {l : List AnnotatedPR},
      List.lookup k m = some l →
      ∃ l2, List.lookup k (bs.foldl step m) = some (l ++ l2) := by
  induction bs with
  | nil => exact fun h => ⟨[], by simpa⟩
  | cons b bs ih =>
    intro m k l h
    obtain ⟨l2, h2⟩ := hstep m k l b h
    obtain ⟨l3, h3⟩ := ih h2
    rw [List.append_assoc] at h3
    exact ⟨l2 ++ l3, by rw [List.foldl_cons]; exact h3⟩

/-- Helper: one inner-loop step only appends to looked-up values. -/
theorem lookup_processReviewer_mono (f : GitHubPRFetcher)
    (env : String → Nat → EndpointResponses) (now : Int) (pr : PullRequest)
    (m : ReviewerMap) (k : String) (l : List AnnotatedPR) (r : User)
    (h : List.lookup k m = some l) :
    ∃ l2, List.lookup k (f.processReviewer env now pr m r) = some (l ++ l2) := by
  unfold GitHubPRFetcher.processReviewer
  split
  · by_cases hk : r.login = k
    · subst hk
      refine ⟨[f.annotate env now pr r.login], ?_⟩
      rw [updateReviewer, lookup_extendKey_self, h]
      rfl
    · refine ⟨[], ?_⟩
      rw [updateReviewer, lookup_extendKey_ne m (fun he => hk he.symm), h,
        List.append_nil]
  · exact ⟨[], by rw [h, List.append_nil]⟩

end PrsByDevHtml

namespace PrsByDevHtml

/-- C10: every entry of the mapping `extract_reviewers` returns has a key
drawn from the configured developers list and a non-empty list of
annotated pull requests — developers with no matching requested-reviewer
entries are absent, never mapped to an empty list. -/
theorem extract_reviewers_invariant (f : GitHubPRFetcher)
    (env : String → Nat → EndpointResponses) (now : Int)
    (prs : List PullRequest) :
    ∀ p ∈ f.extract_reviewers env now prs, p.1 ∈ f.developers ∧ p.2 ≠ [] := by
  intro p hp
  unfold GitHubPRFetcher.extract_reviewers at hp
  rw [List.mem_filter] at hp
  obtain ⟨hmem, hne⟩ := hp
  refine ⟨?_, by simpa using hne⟩
  have hkeys : (prs.foldl (f.processPR env now) f.initMap).map Prod.fst =
      f.initMap.map Prod.fst :=
    foldl_keys_preserved _ (processPR_keys f env now) prs f.initMap
  have hin : p.1 ∈ (prs.foldl (f.processPR env now) f.initMap).map Prod.fst :=
    List.mem_map_of_mem Prod.fst hmem
  rw [hkeys] at hin
  have : p.1 ∈ dedupKeys f.developers := by
    simpa [GitHubPRFetcher.initMap, List.map_map, Function.comp] using hin
  exact mem_dedupKeys.mp this

/-- Witness for C10 at a concrete run: the single produced entry has key
"alice" (a configured developer) and a non-empty list. -/
theorem extract_reviewers_invariant_witness :
    ("alice" : String) ∈ ["alice"] ∧
    ([{ repo := "octo/repo", pr_number := 1, title := "t", author := "bob",
        url := "u", inProgress := false, isStale := false }] :
      List AnnotatedPR) ≠ [] :=
  extract_reviewers_invariant { developers := ["alice"] } aliceEnv 0 [samplePR]
    ("alice",
      [{ repo := "octo/repo", pr_number := 1, title := "t", author := "bob",
         url := "u", inProgress := false, isStale := false }])
    (by decide)

end PrsByDevHtml

namespace PrsByDevHtml

/-- Helper: merging an entry makes its key look up to the old value (empty
when the key was absent) extended with the entry's list. -/
theorem lookup_mergeReviewer_self (acc : ReviewerMap)
    (kv : String × List AnnotatedPR) :
    ∃ l0, List.lookup kv.1 (mergeReviewer acc kv) = some (l0 ++ kv.2) := by
  unfold mergeReviewer
  split
  · next h =>
    obtain ⟨l, hl⟩ := Option.isSome_iff_exists.mp (lookup_isSome_iff_mem_keys.mpr h)
    exact ⟨l, by rw [lookup_extendKey_self, hl]; rfl⟩
  · next h =>
    have hnone : List.lookup kv.1 acc = none := by
      cases hcase : List.lookup kv.1 acc with
      | none => rfl
      | some v =>
        exact absurd (lookup_isSome_iff_mem_keys.mp (by simp [hcase])) h
    refine ⟨[], ?_⟩
    rw [lookup_append_none hnone]
    obtain ⟨k, v⟩ := kv
    rw [lookup_cons_self]
    rfl

/-- Helper: one merge step only appends to looked-up values. -/
theorem lookup_mergeReviewer_mono (acc : ReviewerMap) (k : String)
    (l : List AnnotatedPR) (p : String × List AnnotatedPR)
    (h : List.lookup k acc = some l) :
    ∃ l2, List.lookup k (mergeReviewer acc p) = some (l ++ l2) := by
  unfold mergeReviewer
  split
  · by_cases hk : k = p.1
    · subst hk
      exact ⟨p.2, by rw [lookup_extendKey_self, h]; rfl⟩
    · exact ⟨[], by rw [lookup_extendKey_ne acc hk, h, List.append_nil]⟩
  · by_cases hk : k = p.1
    · exact ⟨[], by rw [lookup_append_some h, List.append_nil]⟩
    · exact ⟨[], by rw [lookup_append_some h, List.append_nil]⟩

/-- Helper: if an entry `(k, l)` occurs in the merged-in list, the
aggregated map's entry for `k` contains every element of `l`. -/
theorem mem_lookup_foldl_mergeReviewer {entries : ReviewerMap} {k : String}
    {l : List AnnotatedPR} {a : AnnotatedPR}
    (hmem : (k, l) ∈ entries) (ha : a ∈ l) (acc : ReviewerMap) :
    ∃ l2, List.lookup k (entries.foldl mergeReviewer acc) = some l2 ∧ a ∈ l2 := by
  obtain ⟨s, t, rfl⟩ := List.append_of_mem hmem
  rw [List.foldl_append, List.foldl_cons]
  obtain ⟨l0, h0⟩ := lookup_mergeReviewer_self (s.foldl mergeReviewer acc) (k, l)
  obtain ⟨l2, h2⟩ := lookup_foldl_mono mergeReviewer
    (fun m k2 l2 b h => lookup_mergeReviewer_mono m k2 l2 b h) t h0
  exact ⟨(l0 ++ l) ++ l2, h2, by simp [ha]⟩

/-- Helper: processing a requested reviewer who is a configured developer
appends exactly their annotation to their entry. -/
theorem lookup_processReviewer_hit (f : GitHubPRFetcher)
    (env : String → Nat → EndpointResponses) (now : Int) (pr : PullRequest)
    {m : ReviewerMap} {l : List AnnotatedPR} (u : User)
    (hdev : u.login ∈ f.developers) (h : List.lookup u.login m = some l) :
    List.lookup u.login (f.processReviewer env now pr m u) =
      some (l ++ [f.annotate env now pr u.login]) := by
  unfold GitHubPRFetcher.processReviewer
  rw [if_pos hdev, updateReviewer, lookup_extendKey_self, h]
  rfl

/-- C8: end to end — for a configured person of interest "alice" and a
repository whose open-pull-request listing contains exactly one pull
request with "alice" among its requested reviewers, where the comment and
review endpoints for that pull request return no item authored by "alice",
the aggregated report contains an entry for "alice" whose list includes
that pull request annotated `inProgress = false`. -/
theorem end_to_end_alice (f : GitHubPRFetcher)
    (env : String → Nat → EndpointResponses) (now : Int) (repo : String)
    (pr : PullRequest) (comments : List IssueComment) (reviews : List Review)
    (hdev : "alice" ∈ f.developers)
    (hrev : ({ login := "alice" } : User) ∈ pr.requested_reviewers)
    (henv : env pr.base_repo_full_name pr.number =
      { comments := ReqResult.resp 200 comments,
        reviews := ReqResult.resp 200 reviews })
    (hc : ∀ c ∈ comments, c.user.login ≠ "alice")
    (hr : ∀ r ∈ reviews, r.user.login ≠ "alice") :
    ∃ report, f.fetch_and_display_prs env now
        (fun _ => [PageResp.ok [pr], PageResp.ok []]) [repo] =
          Except.ok report ∧
      ∃ l, ("alice", l) ∈ report ∧
        ∃ a ∈ l, a.repo = pr.base_repo_full_name ∧ a.pr_number = pr.number ∧
          a.inProgress = false := by
  -- The single repository's fetch yields exactly [pr] and the run succeeds.
  have hrun : f.fetch_and_display_prs env now
      (fun _ => [PageResp.ok [pr], PageResp.ok []]) [repo] =
      Except.ok ((f.extract_reviewers env now [pr]).foldl mergeReviewer []) := by
    unfold GitHubPRFetcher.fetch_and_display_prs
    simp [fetch_open_prs, fetchPages]
  -- The annotation appended for ("alice", pr) has inProgress = false.
  set ann := f.annotate env now pr "alice" with hann
  have hannprog : ann.inProgress = false := by
    rw [hann]
    unfold GitHubPRFetcher.annotate
    simp only [henv]
    exact has_reviewer_feedback_eq_false_of_no_match hc hr
  -- Inside extract_reviewers, alice's entry contains the annotation.
  obtain ⟨s, t, hsplit⟩ := List.append_of_mem hrev
  have hinit : List.lookup "alice" f.initMap = some [] := lookup_initMap hdev
  obtain ⟨l1, h1⟩ := lookup_foldl_mono (f.processReviewer env now pr)
    (fun m k2 l2 b h => lookup_processReviewer_mono f env now pr m k2 l2 b h)
    s hinit
  have hhit : List.lookup "alice"
      (f.processReviewer env now pr (s.foldl (f.processReviewer env now pr)
        f.initMap) { login := "alice" }) = some (([] ++ l1) ++ [ann]) :=
    lookup_processReviewer_hit f env now pr { login := "alice" } hdev h1
  obtain ⟨l2, h2⟩ := lookup_foldl_mono (f.processReviewer env now pr)
    (fun m k2 l2 b h => lookup_processReviewer_mono f env now pr m k2 l2 b h)
    t hhit
  have hfilled : List.lookup "alice" (f.processPR env now f.initMap pr) =
      some (((([] ++ l1) ++ [ann]) ++ l2)) := by
    unfold GitHubPRFetcher.processPR
    rw [hsplit, List.foldl_append, List.foldl_cons]
    exact h2
  set L := ((([] ++ l1) ++ [ann]) ++ l2) with hL
  have hmemL : ann ∈ L := by simp [hL]
  -- The filter keeps alice's entry (it is non-empty).
  have hmemfilled : ("alice", L) ∈ f.processPR env now f.initMap pr :=
    mem_of_lookup hfilled
  have hmemext : ("alice", L) ∈ f.extract_reviewers env now [pr] := by
    unfold GitHubPRFetcher.extract_reviewers
    rw [List.foldl_cons, List.foldl_nil, List.mem_filter]
    refine ⟨hmemfilled, ?_⟩
    obtain ⟨x, xs, hxs⟩ := List.exists_cons_of_ne_nil (List.ne_nil_of_mem hmemL)
    rw [hxs]
    rfl
  -- Merging into the empty aggregate preserves the entry's contents.
  obtain ⟨l3, h3, ha3⟩ := mem_lookup_foldl_mergeReviewer hmemext hmemL []
  exact ⟨(f.extract_reviewers env now [pr]).foldl mergeReviewer [], hrun,
    l3, mem_of_lookup h3, ann, ha3, rfl, rfl, hannprog⟩

end PrsByDevHtml

namespace PrsByDevHtml

/-- Witness for C8 at concrete inputs: one repository, one pull request
requesting "alice", endpoints with no items at all. -/
theorem end_to_end_alice_witness :
    ∃ report, GitHubPRFetcher.fetch_and_display_prs
        { developers := ["alice"] } aliceEnv 0
        (fun _ => [PageResp.ok [samplePR], PageResp.ok []]) ["octo/repo"] =
          Except.ok report ∧
      ∃ l, ("alice", l) ∈ report ∧
        ∃ a ∈ l, a.repo = samplePR.base_repo_full_name ∧
          a.pr_number = samplePR.number ∧ a.inProgress = false :=
  end_to_end_alice { developers := ["alice"] } aliceEnv 0 "octo/repo" samplePR
    [] [] (by decide) (by decide) rfl (by simp) (by simp)

end PrsByDevHtml
